import Mathlib

/-!
Shallow embedding of the Tree of Thought solver
(`src/Skills/Agentic_AI/Reasoning_Models/tree_of_thought.py`).

Scores are modelled as rationals (`ℚ`); the Python floats occurring in the
program and in the scenarios (0.3, 0.5, 0.9, 0.4, 1.0, …) are used only in
order comparisons that agree with exact rational arithmetic.  The generator
and evaluator collaborators are pure functions, mirroring the deterministic
test doubles of the specification.  Wall-clock timing (`duration`) is not
modelled.  The Python `while stack` loop of `_dfs` is embedded with an
explicit fuel parameter: `none` means the fuel was exhausted before the
loop finished, and every statement about `_dfs` is made for runs in which
the loop did finish.
-/

namespace ToT

/-- `Generator.generate_thoughts(state, problem, n)` as a pure function. -/
abbrev Generator := String → String → Nat → List String

/-- `Evaluator.evaluate(state, problem)` as a pure function. -/
abbrev Evaluator := String → String → ℚ

/-- The `SearchNode` dataclass: state text, optional parent link, score,
depth, and accumulated `path_history`. -/
inductive SearchNode where
  | mk (state : String) (parent : Option SearchNode) (score : ℚ)
      (depth : Nat) (path_history : List String)

def SearchNode.state : SearchNode → String
  | .mk s _ _ _ _ => s

def SearchNode.parent : SearchNode → Option SearchNode
  | .mk _ p _ _ _ => p

def SearchNode.score : SearchNode → ℚ
  | .mk _ _ sc _ _ => sc

def SearchNode.depth : SearchNode → Nat
  | .mk _ _ _ d _ => d

def SearchNode.path_history : SearchNode → List String
  | .mk _ _ _ _ ph => ph

/-- Python's `"\n".join`. -/
def joinNL : List String → String
  | [] => ""
  | [a] => a
  | a :: b :: l => a ++ "\n" ++ joinNL (b :: l)

/-- `SearchNode.get_full_path`: `"\n".join(self.path_history + [self.state])`. -/
def SearchNode.get_full_path (n : SearchNode) : String :=
  joinNL (n.path_history ++ [n.state])

/-- The child construction appearing in `_bfs` and `_dfs`:
`SearchNode(state=thought, parent=node, score=score, depth=d, path_history=node.path_history + [node.state])`. -/
def mkChild (node : SearchNode) (thought : String) (score : ℚ) (depth : Nat) : SearchNode :=
  .mk thought (some node) score depth (node.path_history ++ [node.state])

/-- The constructor configuration of `TreeOfThoughtSolver.__init__`:
`strategy`, `max_depth`, `branching_factor` (the only search parameters the
constructor accepts). -/
structure SolverConfig where
  strategy : String
  max_depth : Nat
  branching_factor : Nat

/-- The constructor defaults: `strategy="bfs"`, `max_depth=5`, `branching_factor=3`. -/
def defaultConfig : SolverConfig := ⟨"bfs", 5, 3⟩

/-- The root node built at the start of `solve`:
`SearchNode(state="Start", parent=None, score=0.5, depth=0, path_history=[])`. -/
def root : SearchNode := .mk "Start" none (mkRat 1 2) 0 []

/-- The inner `for thought in thoughts` loop of `_bfs`: count every evaluated
candidate, prune below `0.3`, materialize a child otherwise, and return the
child immediately when its score reaches `0.9` (`Sum.inl`); otherwise return
the list of surviving children of this node in generation order (`Sum.inr`). -/
def bfsChildren (ev : Evaluator) (problem : String) (node : SearchNode) (childDepth : Nat) :
    List String → Nat → Nat × (SearchNode ⊕ List SearchNode)
  | [], cnt => (cnt, Sum.inr [])
  | t :: ts, cnt =>
    let score := ev (node.get_full_path ++ "\n" ++ t) problem
    if score < mkRat 3 10 then bfsChildren ev problem node childDepth ts (cnt + 1)
    else if mkRat 9 10 ≤ score then (cnt + 1, Sum.inl (mkChild node t score childDepth))
    else
      match bfsChildren ev problem node childDepth ts (cnt + 1) with
      | (c, Sum.inl f) => (c, Sum.inl f)
      | (c, Sum.inr rest) => (c, Sum.inr (mkChild node t score childDepth :: rest))

/-- The `for node in queue` loop of one `_bfs` level: an already-qualified
frontier node returns immediately; otherwise its thoughts are generated
(with the `"Start"`-sentinel substituted by `""`) and expanded. -/
def bfsLevel (gen : Generator) (ev : Evaluator) (problem : String) (branching : Nat)
    (childDepth : Nat) : List SearchNode → Nat → Nat × (SearchNode ⊕ List SearchNode)
  | [], cnt => (cnt, Sum.inr [])
  | n :: ns, cnt =>
    if mkRat 9 10 ≤ n.score then (cnt, Sum.inl n)
    else
      let thoughts := gen (if n.state = "Start" then "" else n.state) problem branching
      match bfsChildren ev problem n childDepth thoughts cnt with
      | (c, Sum.inl f) => (c, Sum.inl f)
      | (c, Sum.inr kids) =>
        match bfsLevel gen ev problem branching childDepth ns c with
        | (c2, Sum.inl f) => (c2, Sum.inl f)
        | (c2, Sum.inr rest) => (c2, Sum.inr (kids ++ rest))

/-- One insertion step of the stable descending sort: `x` is placed before
the first element whose score is at most `x`'s (so it goes after every
strictly higher score and before every tie, preserving original order of
ties). -/
def insertDesc (x : SearchNode) : List SearchNode → List SearchNode
  | [] => [x]
  | y :: ys => if y.score ≤ x.score then x :: y :: ys else y :: insertDesc x ys

/-- `next_queue.sort(key=lambda x: x.score, reverse=True)`: Python's sort is
stable, so this is the stable descending-by-score order, modelled by stable
insertion sort. -/
def sortDesc : List SearchNode → List SearchNode
  | [] => []
  | x :: l => insertDesc x (sortDesc l)

/-- The `for depth in range(self.max_depth)` loop of `_bfs`; the first `Nat`
argument is the number of levels still to run, the second the current level. -/
def bfsLoop (gen : Generator) (ev : Evaluator) (problem : String) (branching : Nat) :
    Nat → Nat → List SearchNode → Nat → Nat × Option SearchNode
  | 0, _, queue, cnt => (cnt, queue.head?)
  | fuel + 1, d, queue, cnt =>
    match bfsLevel gen ev problem branching (d + 1) queue cnt with
    | (c, Sum.inl f) => (c, some f)
    | (c, Sum.inr nextq) =>
      let q := (sortDesc nextq).take 5
      if q.isEmpty then (c, none)
      else bfsLoop gen ev problem branching fuel (d + 1) q c

/-- The `for thought in reversed(thoughts)` loop of `_dfs`: evaluate each
candidate (counting it), prune below `0.3`, push surviving children onto the
stack (head of the list is the top of the stack). -/
def dfsPush (ev : Evaluator) (problem : String) (node : SearchNode) :
    List String → Nat → List SearchNode → Nat × List SearchNode
  | [], cnt, stack => (cnt, stack)
  | t :: ts, cnt, stack =>
    let score := ev (node.get_full_path ++ "\n" ++ t) problem
    if score < mkRat 3 10 then dfsPush ev problem node ts (cnt + 1) stack
    else dfsPush ev problem node ts (cnt + 1) (mkChild node t score (node.depth + 1) :: stack)

/-- The `while stack` loop of `_dfs`, with fuel (`none` = fuel ran out):
pop, skip nodes beyond `max_depth`, track the best node, return a node
scoring at least `0.9`, otherwise expand and push children. -/
def dfsLoop (gen : Generator) (ev : Evaluator) (problem : String) (branching : Nat)
    (maxd : Nat) : Nat → List SearchNode → SearchNode → Nat → Option (Nat × SearchNode)
  | _, [], best, cnt => some (cnt, best)
  | 0, _ :: _, _, _ => none
  | fuel + 1, node :: stack, best, cnt =>
    if maxd < node.depth then dfsLoop gen ev problem branching maxd fuel stack best cnt
    else
      let best2 := if best.score < node.score then node else best
      if mkRat 9 10 ≤ node.score then some (cnt, node)
      else
        let thoughts := gen (if node.state = "Start" then "" else node.state) problem branching
        match dfsPush ev problem node thoughts.reverse cnt stack with
        | (c, stack2) => dfsLoop gen ev problem branching maxd fuel stack2 best2 c

/-- The result dictionary of `solve` (the wall-clock `duration` field is not
modelled). -/
inductive Outcome where
  | solved (solution : String) (final_score : ℚ) (depth : Nat) (nodes_explored : Nat)
  | failed (reason : String) (nodes_explored : Nat)
deriving DecidableEq

/-- `TreeOfThoughtSolver.solve`: dispatch on the strategy tag, run the
traversal from the `"Start"` root, and assemble the outcome.  `Except.error`
models the raised `ValueError`; the outer `Option` is `none` only when the
`_dfs` fuel ran out. -/
def solve (gen : Generator) (ev : Evaluator) (cfg : SolverConfig) (problem : String)
    (fuel : Nat) : Option (Except String Outcome) :=
  if cfg.strategy = "bfs" then
    match bfsLoop gen ev problem cfg.branching_factor cfg.max_depth 0 [root] 0 with
    | (cnt, some n) => some (Except.ok (Outcome.solved n.get_full_path n.score n.depth cnt))
    | (cnt, none) => some (Except.ok (Outcome.failed "Max depth or no solution found" cnt))
  else if cfg.strategy = "dfs" then
    match dfsLoop gen ev problem cfg.branching_factor cfg.max_depth fuel [root] root 0 with
    | none => none
    | some (cnt, n) => some (Except.ok (Outcome.solved n.get_full_path n.score n.depth cnt))
  else some (Except.error ("Unknown strategy: " ++ cfg.strategy))

/-! ### Spec-modelled configurable solver

Modelled from the spec: the specification describes beam width, prune
threshold and success threshold as Solver configuration supplied at
construction (`beam_width: int>0 (default 5, breadth-only)`,
`prune_threshold: float (default 0.3)`, `success_threshold: float (default
0.9)`), while the source hardcodes `5`, `0.3` and `0.9`.  The following
definitions are the same algorithm with those three quantities abstracted
as parameters `bw`, `pt`, `st`, used to compare code and spec. -/

/-- Modelled from the spec: `bfsChildren` with configurable prune threshold
`pt` and success threshold `st`. -/
def bfsChildrenP (ev : Evaluator) (problem : String) (pt st : ℚ) (node : SearchNode)
    (childDepth : Nat) : List String → Nat → Nat × (SearchNode ⊕ List SearchNode)
  | [], cnt => (cnt, Sum.inr [])
  | t :: ts, cnt =>
    let score := ev (node.get_full_path ++ "\n" ++ t) problem
    if score < pt then bfsChildrenP ev problem pt st node childDepth ts (cnt + 1)
    else if st ≤ score then (cnt + 1, Sum.inl (mkChild node t score childDepth))
    else
      match bfsChildrenP ev problem pt st node childDepth ts (cnt + 1) with
      | (c, Sum.inl f) => (c, Sum.inl f)
      | (c, Sum.inr rest) => (c, Sum.inr (mkChild node t score childDepth :: rest))

/-- Modelled from the spec: `bfsLevel` with configurable thresholds. -/
def bfsLevelP (gen : Generator) (ev : Evaluator) (problem : String) (branching : Nat)
    (pt st : ℚ) (childDepth : Nat) :
    List SearchNode → Nat → Nat × (SearchNode ⊕ List SearchNode)
  | [], cnt => (cnt, Sum.inr [])
  | n :: ns, cnt =>
    if st ≤ n.score then (cnt, Sum.inl n)
    else
      let thoughts := gen (if n.state = "Start" then "" else n.state) problem branching
      match bfsChildrenP ev problem pt st n childDepth thoughts cnt with
      | (c, Sum.inl f) => (c, Sum.inl f)
      | (c, Sum.inr kids) =>
        match bfsLevelP gen ev problem branching pt st childDepth ns c with
        | (c2, Sum.inl f) => (c2, Sum.inl f)
        | (c2, Sum.inr rest) => (c2, Sum.inr (kids ++ rest))

/-- Modelled from the spec: `bfsLoop` with configurable beam width `bw` and
thresholds. -/
def bfsLoopP (gen : Generator) (ev : Evaluator) (problem : String) (branching : Nat)
    (bw : Nat) (pt st : ℚ) : Nat → Nat → List SearchNode → Nat → Nat × Option SearchNode
  | 0, _, queue, cnt => (cnt, queue.head?)
  | fuel + 1, d, queue, cnt =>
    match bfsLevelP gen ev problem branching pt st (d + 1) queue cnt with
    | (c, Sum.inl f) => (c, some f)
    | (c, Sum.inr nextq) =>
      let q := (sortDesc nextq).take bw
      if q.isEmpty then (c, none)
      else bfsLoopP gen ev problem branching bw pt st fuel (d + 1) q c

/-- Modelled from the spec: `dfsPush` with configurable prune threshold. -/
def dfsPushP (ev : Evaluator) (problem : String) (pt : ℚ) (node : SearchNode) :
    List String → Nat → List SearchNode → Nat × List SearchNode
  | [], cnt, stack => (cnt, stack)
  | t :: ts, cnt, stack =>
    let score := ev (node.get_full_path ++ "\n" ++ t) problem
    if score < pt then dfsPushP ev problem pt node ts (cnt + 1) stack
    else dfsPushP ev problem pt node ts (cnt + 1) (mkChild node t score (node.depth + 1) :: stack)

/-- Modelled from the spec: `dfsLoop` with configurable thresholds. -/
def dfsLoopP (gen : Generator) (ev : Evaluator) (problem : String) (branching : Nat)
    (maxd : Nat) (pt st : ℚ) : Nat → List SearchNode → SearchNode → Nat → Option (Nat × SearchNode)
  | _, [], best, cnt => some (cnt, best)
  | 0, _ :: _, _, _ => none
  | fuel + 1, node :: stack, best, cnt =>
    if maxd < node.depth then dfsLoopP gen ev problem branching maxd pt st fuel stack best cnt
    else
      let best2 := if best.score < node.score then node else best
      if st ≤ node.score then some (cnt, node)
      else
        let thoughts := gen (if node.state = "Start" then "" else node.state) problem branching
        match dfsPushP ev problem pt node thoughts.reverse cnt stack with
        | (c, stack2) => dfsLoopP gen ev problem branching maxd pt st fuel stack2 best2 c

/-- Modelled from the spec: `solve` with configurable beam width, prune
threshold and success threshold, as the specification's constructor options
describe. -/
def solveP (gen : Generator) (ev : Evaluator) (cfg : SolverConfig) (bw : Nat) (pt st : ℚ)
    (problem : String) (fuel : Nat) : Option (Except String Outcome) :=
  if cfg.strategy = "bfs" then
    match bfsLoopP gen ev problem cfg.branching_factor bw pt st cfg.max_depth 0 [root] 0 with
    | (cnt, some n) => some (Except.ok (Outcome.solved n.get_full_path n.score n.depth cnt))
    | (cnt, none) => some (Except.ok (Outcome.failed "Max depth or no solution found" cnt))
  else if cfg.strategy = "dfs" then
    match dfsLoopP gen ev problem cfg.branching_factor cfg.max_depth pt st fuel [root] root 0 with
    | none => none
    | some (cnt, n) => some (Except.ok (Outcome.solved n.get_full_path n.score n.depth cnt))
  else some (Except.error ("Unknown strategy: " ++ cfg.strategy))

/-! ### Auxiliary specification-side notions and deterministic test doubles -/

/-- The candidates a breadth level would evaluate, in generation order:
for each frontier node in order, each generated thought paired with the
node and the evaluator's score for the extended full path. -/
def levelCands (gen : Generator) (ev : Evaluator) (problem : String) (branching : Nat)
    (frontier : List SearchNode) : List (SearchNode × String × ℚ) :=
  frontier.flatMap fun n =>
    (gen (if n.state = "Start" then "" else n.state) problem branching).map
      fun t => (n, t, ev (n.get_full_path ++ "\n" ++ t) problem)

/-- Boolean substring test (used by the scenario evaluators). -/
def hasSub (needle : String) (s : String) : Bool :=
  go needle.data s.data
where
  go (n : List Char) : List Char → Bool
    | [] => n.isPrefixOf []
    | c :: cs => n.isPrefixOf (c :: cs) || go n cs

/-- Number of newline characters in a string (depth of a full path). -/
def countNL (s : String) : Nat := s.data.count '\n'

/-- A generator that always returns the empty sequence. -/
def emptyGen : Generator := fun _ _ _ => []

/-- An evaluator returning a constant score of `0`. -/
def zeroEval : Evaluator := fun _ _ => 0

/-- Scenario generator for the spec's concrete "DONE" scenario: on the
root's (empty) state return `["A", "DONE"]`, on any deeper state return `[]`. -/
def gen4 : Generator := fun s _ _ => if s = "" then ["A", "DONE"] else []

/-- Scenario evaluator: any path containing the substring `"DONE"` scores
`1.0`, everything else `0.4`. -/
def ev4 : Evaluator := fun s _ => if hasSub "DONE" s then mkRat 1 1 else mkRat 2 5

/-- Scenario generator (depth strategy): `"A"` from the root, `"B"` from
`"A"`, nothing deeper. -/
def gen3 : Generator := fun s _ _ => if s = "" then ["A"] else if s = "A" then ["B"] else []

/-- Scenario evaluator: exactly the full path `"Start\nA\nB"` scores `1.0`,
everything else `0.5`. -/
def ev3 : Evaluator := fun s _ => if s = "Start\nA\nB" then mkRat 1 1 else mkRat 1 2

/-- Scenario generator: three thoughts from the root, one thought from any
deeper state. -/
def genC2 : Generator := fun s _ _ => if s = "" then ["A", "B", "C"] else ["X"]

/-- Scenario evaluator: depth-one paths (at most one newline) score `0.5`,
deeper paths `0.1` (below the prune threshold). -/
def evC2 : Evaluator := fun s _ => if countNL s ≤ 1 then mkRat 1 2 else mkRat 1 10

/-- Scenario generator exercising the root-sentinel keying: the literal
thought `"Start"` from the (substituted) empty state, `"REAL"` from any
other state. -/
def gen10 : Generator := fun s _ _ => if s = "" then ["Start"] else ["REAL"]

/-- Scenario evaluator: paths of three or more lines score `1.0`, shorter
paths `0.5`. -/
def ev10 : Evaluator := fun s _ => if 2 ≤ countNL s then mkRat 1 1 else mkRat 1 2

/-- A node whose reasoning chain starts at the synthetic root: either it is
the root itself (empty history, state `"Start"`) or its history begins with
the root's `"Start"` marker. -/
def RootedPath (n : SearchNode) : Prop :=
  (n.path_history = [] ∧ n.state = "Start") ∨ ∃ l, n.path_history = "Start" :: l

open List

/-! ### Helper lemmas: the stable descending sort -/

theorem insertDesc_perm (x : SearchNode) (l : List SearchNode) :
    insertDesc x l ~ x :: l := by
  induction l with
  | nil => exact List.Perm.refl _
  | cons y ys ih =>
    simp only [insertDesc]
    split
    · exact List.Perm.refl _
    · exact (List.Perm.cons y ih).trans (List.Perm.swap x y ys)

theorem sortDesc_perm (l : List SearchNode) : sortDesc l ~ l := by
  induction l with
  | nil => exact List.Perm.refl _
  | cons x xs ih => exact (insertDesc_perm x (sortDesc xs)).trans (List.Perm.cons x ih)

theorem mem_sortDesc {a : SearchNode} {l : List SearchNode} : a ∈ sortDesc l ↔ a ∈ l :=
  (sortDesc_perm l).mem_iff

theorem pairwise_insertDesc {x : SearchNode} {l : List SearchNode}
    (h : l.Pairwise fun a b => b.score ≤ a.score) :
    (insertDesc x l).Pairwise fun a b => b.score ≤ a.score := by
  induction l with
  | nil => simp [insertDesc]
  | cons y ys ih =>
    rw [List.pairwise_cons] at h
    obtain ⟨hy, hys⟩ := h
    simp only [insertDesc]
    split
    · rename_i hc
      refine List.Pairwise.cons ?_ (List.Pairwise.cons hy hys)
      intro b hb
      rcases List.mem_cons.mp hb with rfl | hb
      · exact hc
      · exact le_trans (hy b hb) hc
    · rename_i hc
      refine List.Pairwise.cons ?_ (ih hys)
      intro b hb
      rcases List.mem_cons.mp ((insertDesc_perm x ys).mem_iff.mp hb) with rfl | hb
      · exact le_of_lt (lt_of_not_le hc)
      · exact hy b hb

theorem pairwise_sortDesc (l : List SearchNode) :
    (sortDesc l).Pairwise fun a b => b.score ≤ a.score := by
  induction l with
  | nil => simp [sortDesc]
  | cons x xs ih => exact pairwise_insertDesc ih

theorem sublist_insertDesc (x : SearchNode) (l : List SearchNode) :
    l <+ insertDesc x l := by
  induction l with
  | nil => simp [insertDesc]
  | cons y ys ih =>
    simp only [insertDesc]
    split
    · exact List.sublist_cons_self x (y :: ys)
    · exact ih.cons₂ y

theorem insertDesc_pair {x b : SearchNode} {s : List SearchNode}
    (hb : b ∈ s) (hle : b.score ≤ x.score) : [x, b] <+ insertDesc x s := by
  induction s with
  | nil => cases hb
  | cons y ys ih =>
    simp only [insertDesc]
    split
    · exact (List.singleton_sublist.mpr hb).cons₂ x
    · rename_i hc
      have hbys : b ∈ ys := by
        rcases List.mem_cons.mp hb with rfl | h
        · exact absurd hle hc
        · exact h
      exact (ih hbys).cons y

theorem sortDesc_pair_sublist {a b : SearchNode} (hab : a.score = b.score) :
    ∀ {l : List SearchNode}, [a, b] <+ l → [a, b] <+ sortDesc l := by
  intro l
  induction l with
  | nil => intro h; cases h
  | cons x xs ih =>
    intro h
    simp only [sortDesc]
    cases h with
    | cons _ h2 => exact (ih h2).trans (sublist_insertDesc x (sortDesc xs))
    | cons₂ _ h2 =>
      exact insertDesc_pair (mem_sortDesc.mpr (List.singleton_sublist.mp h2)) hab.ge

/-- Claim C6: in breadth mode, after a completed level the loop continues
with `(sortDesc next).take 5` as the new frontier — at most five (the fixed
beam width) nodes, the top of a stable descending sort of the surviving
children: a permutation, ordered by non-increasing score, with ties kept in
generation order. -/
theorem c6_beam_bound (gen : Generator) (ev : Evaluator) (problem : String)
    (br fuel d cnt c : Nat) (frontier nextq : List SearchNode)
    (h : bfsLevel gen ev problem br (d + 1) frontier cnt = (c, Sum.inr nextq)) :
    bfsLoop gen ev problem br (fuel + 1) d frontier cnt
      = (if ((sortDesc nextq).take 5).isEmpty then (c, none)
         else bfsLoop gen ev problem br fuel (d + 1) ((sortDesc nextq).take 5) c)
    ∧ ((sortDesc nextq).take 5).length ≤ 5
    ∧ sortDesc nextq ~ nextq
    ∧ (sortDesc nextq).Pairwise (fun a b => b.score ≤ a.score)
    ∧ (∀ a b : SearchNode, a.score = b.score → [a, b] <+ nextq → [a, b] <+ sortDesc nextq) := by
  refine ⟨?_, ?_, sortDesc_perm nextq, pairwise_sortDesc nextq,
    fun a b hab hsub => sortDesc_pair_sublist hab hsub⟩
  · simp only [bfsLoop, h]
  · simp

/-- Claim C6 witness: the concrete scenario with three surviving depth-one
children keeps all three (at most five) in stable descending order. -/
theorem c6_beam_bound_witness :
    bfsLoop genC2 evC2 "P" 3 2 0 [root] 0
      = (if ((sortDesc [mkChild root "A" (mkRat 1 2) 1, mkChild root "B" (mkRat 1 2) 1,
            mkChild root "C" (mkRat 1 2) 1]).take 5).isEmpty then (3, none)
         else bfsLoop genC2 evC2 "P" 3 1 1
            ((sortDesc [mkChild root "A" (mkRat 1 2) 1, mkChild root "B" (mkRat 1 2) 1,
              mkChild root "C" (mkRat 1 2) 1]).take 5) 3)
    ∧ ((sortDesc [mkChild root "A" (mkRat 1 2) 1, mkChild root "B" (mkRat 1 2) 1,
        mkChild root "C" (mkRat 1 2) 1]).take 5).length ≤ 5
    ∧ sortDesc [mkChild root "A" (mkRat 1 2) 1, mkChild root "B" (mkRat 1 2) 1,
        mkChild root "C" (mkRat 1 2) 1]
        ~ [mkChild root "A" (mkRat 1 2) 1, mkChild root "B" (mkRat 1 2) 1,
        mkChild root "C" (mkRat 1 2) 1]
    ∧ (sortDesc [mkChild root "A" (mkRat 1 2) 1, mkChild root "B" (mkRat 1 2) 1,
        mkChild root "C" (mkRat 1 2) 1]).Pairwise (fun a b => b.score ≤ a.score)
    ∧ (∀ a b : SearchNode, a.score = b.score
        → [a, b] <+ [mkChild root "A" (mkRat 1 2) 1, mkChild root "B" (mkRat 1 2) 1,
            mkChild root "C" (mkRat 1 2) 1]
        → [a, b] <+ sortDesc [mkChild root "A" (mkRat 1 2) 1, mkChild root "B" (mkRat 1 2) 1,
            mkChild root "C" (mkRat 1 2) 1]) :=
  c6_beam_bound genC2 evC2 "P" 3 1 0 0 3 [root]
    [mkChild root "A" (mkRat 1 2) 1, mkChild root "B" (mkRat 1 2) 1,
      mkChild root "C" (mkRat 1 2) 1] rfl

@[simp] theorem score_mkChild (n : SearchNode) (t : String) (s : ℚ) (d : Nat) :
    (mkChild n t s d).score = s := rfl

@[simp] theorem depth_mkChild (n : SearchNode) (t : String) (s : ℚ) (d : Nat) :
    (mkChild n t s d).depth = d := rfl

@[simp] theorem state_mkChild (n : SearchNode) (t : String) (s : ℚ) (d : Nat) :
    (mkChild n t s d).state = t := rfl

@[simp] theorem parent_mkChild (n : SearchNode) (t : String) (s : ℚ) (d : Nat) :
    (mkChild n t s d).parent = some n := rfl

@[simp] theorem path_history_mkChild (n : SearchNode) (t : String) (s : ℚ) (d : Nat) :
    (mkChild n t s d).path_history = n.path_history ++ [n.state] := rfl

/-! ### Helper lemmas: properties preserved by every child construction -/

theorem bfsChildren_inr_P (P : SearchNode → Prop) (ev : Evaluator) (problem : String)
    (node : SearchNode) (d : Nat)
    (hmk : ∀ t s, mkRat 3 10 ≤ s → P (mkChild node t s d)) :
    ∀ (ts : List String) (cnt c : Nat) (kids : List SearchNode),
    bfsChildren ev problem node d ts cnt = (c, Sum.inr kids) → ∀ k ∈ kids, P k := by
  intro ts
  induction ts with
  | nil =>
    intro cnt c kids h k hk
    simp only [bfsChildren, Prod.mk.injEq, Sum.inr.injEq] at h
    rw [← h.2] at hk
    cases hk
  | cons t ts ih =>
    intro cnt c kids h k hk
    simp only [bfsChildren] at h
    split at h
    · exact ih _ _ _ h k hk
    · split at h
      · simp at h
      · rename_i hnp hns
        rcases hrec : bfsChildren ev problem node d ts (cnt + 1) with ⟨c2, r⟩
        rw [hrec] at h
        cases r with
        | inl f => simp at h
        | inr rest =>
          simp only [Prod.mk.injEq, Sum.inr.injEq] at h
          rw [← h.2] at hk
          rcases List.mem_cons.mp hk with rfl | hk2
          · exact hmk _ _ (not_lt.mp hnp)
          · exact ih _ _ _ hrec k hk2

theorem bfsChildren_inl_P (P : SearchNode → Prop) (ev : Evaluator) (problem : String)
    (node : SearchNode) (d : Nat)
    (hmk : ∀ t s, mkRat 3 10 ≤ s → P (mkChild node t s d)) :
    ∀ (ts : List String) (cnt c : Nat) (f : SearchNode),
    bfsChildren ev problem node d ts cnt = (c, Sum.inl f) → P f ∧ mkRat 9 10 ≤ f.score := by
  intro ts
  induction ts with
  | nil =>
    intro cnt c f h
    simp [bfsChildren] at h
  | cons t ts ih =>
    intro cnt c f h
    simp only [bfsChildren] at h
    split at h
    · exact ih _ _ _ h
    · split at h
      · rename_i hnp hs
        simp only [Prod.mk.injEq, Sum.inl.injEq] at h
        rw [← h.2]
        exact ⟨hmk _ _ (not_lt.mp hnp), by simpa using hs⟩
      · rcases hrec : bfsChildren ev problem node d ts (cnt + 1) with ⟨c2, r⟩
        rw [hrec] at h
        cases r with
        | inl f2 =>
          simp only [Prod.mk.injEq, Sum.inl.injEq] at h
          rw [← h.2]
          exact ih _ _ _ hrec
        | inr rest => simp at h

theorem bfsLevel_inr_P (P : SearchNode → Prop) (gen : Generator) (ev : Evaluator)
    (problem : String) (br d : Nat)
    (hmk : ∀ n t s, P n → mkRat 3 10 ≤ s → P (mkChild n t s d)) :
    ∀ (ns : List SearchNode) (cnt c : Nat) (next : List SearchNode),
    (∀ m ∈ ns, P m) →
    bfsLevel gen ev problem br d ns cnt = (c, Sum.inr next) → ∀ k ∈ next, P k := by
  intro ns
  induction ns with
  | nil =>
    intro cnt c next _ h k hk
    simp only [bfsLevel, Prod.mk.injEq, Sum.inr.injEq] at h
    rw [← h.2] at hk
    cases hk
  | cons n ns ih =>
    intro cnt c next hns h k hk
    simp only [bfsLevel] at h
    split at h
    · simp at h
    · split at h
      · simp at h
      · rename_i c1 kids heq
        split at h
        · simp at h
        · rename_i c2 rest heq2
          simp only [Prod.mk.injEq, Sum.inr.injEq] at h
          rw [← h.2] at hk
          rcases List.mem_append.mp hk with hk1 | hk2
          · exact bfsChildren_inr_P P ev problem n d
              (fun t s hs => hmk n t s (hns n (List.mem_cons_self n ns)) hs) _ _ _ _ heq k hk1
          · exact ih _ _ _ (fun m hm => hns m (List.mem_cons_of_mem n hm)) heq2 k hk2

theorem bfsLevel_inl_P (P : SearchNode → Prop) (gen : Generator) (ev : Evaluator)
    (problem : String) (br d : Nat)
    (hmk : ∀ n t s, P n → mkRat 3 10 ≤ s → P (mkChild n t s d)) :
    ∀ (ns : List SearchNode) (cnt c : Nat) (f : SearchNode),
    (∀ m ∈ ns, P m) →
    bfsLevel gen ev problem br d ns cnt = (c, Sum.inl f) → f ∈ ns ∨ P f := by
  intro ns
  induction ns with
  | nil =>
    intro cnt c f _ h
    simp [bfsLevel] at h
  | cons n ns ih =>
    intro cnt c f hns h
    simp only [bfsLevel] at h
    split at h
    · simp only [Prod.mk.injEq, Sum.inl.injEq] at h
      rw [← h.2]
      exact Or.inl (List.mem_cons_self n ns)
    · split at h
      · rename_i c1 f2 heq
        simp only [Prod.mk.injEq, Sum.inl.injEq] at h
        rw [← h.2]
        exact Or.inr (bfsChildren_inl_P P ev problem n d
          (fun t s hs => hmk n t s (hns n (List.mem_cons_self n ns)) hs) _ _ _ _ heq).1
      · rename_i c1 kids heq
        split at h
        · rename_i c2 f2 heq2
          simp only [Prod.mk.injEq, Sum.inl.injEq] at h
          rw [← h.2]
          rcases ih _ _ _ (fun m hm => hns m (List.mem_cons_of_mem n hm)) heq2 with hmem | hP
          · exact Or.inl (List.mem_cons_of_mem n hmem)
          · exact Or.inr hP
        · simp at h

theorem bfsLoop_P (P : SearchNode → Prop) (gen : Generator) (ev : Evaluator)
    (problem : String) (br : Nat)
    (hmk : ∀ n t s d, P n → mkRat 3 10 ≤ s → P (mkChild n t s d)) :
    ∀ (fuel d : Nat) (q : List SearchNode) (cnt c : Nat) (n : SearchNode),
    (∀ m ∈ q, P m) → bfsLoop gen ev problem br fuel d q cnt = (c, some n) → P n := by
  intro fuel
  induction fuel with
  | zero =>
    intro d q cnt c n hq h
    simp only [bfsLoop, Prod.mk.injEq] at h
    cases q with
    | nil => simp at h
    | cons a l =>
      have : a = n := by simpa using h.2
      exact this ▸ hq a (List.mem_cons_self a l)
  | succ fuel ih =>
    intro d q cnt c n hq h
    simp only [bfsLoop] at h
    split at h
    · rename_i c1 f heq
      simp only [Prod.mk.injEq, Option.some.injEq] at h
      rw [← h.2]
      rcases bfsLevel_inl_P P gen ev problem br (d + 1) (fun n t s hn => hmk n t s (d + 1) hn)
        _ _ _ _ hq heq with hmem | hP
      · exact hq f hmem
      · exact hP
    · rename_i c1 nextq heq
      split at h
      · simp at h
      · refine ih (d + 1) _ c1 c n ?_ h
        intro m hm
        have hm2 : m ∈ sortDesc nextq := List.mem_of_mem_take hm
        exact bfsLevel_inr_P P gen ev problem br (d + 1) (fun n t s hn => hmk n t s (d + 1) hn)
          _ _ _ _ hq heq m (mem_sortDesc.mp hm2)

theorem dfsPush_P (P : SearchNode → Prop) (ev : Evaluator) (problem : String)
    (node : SearchNode)
    (hmk : ∀ t s, mkRat 3 10 ≤ s → P (mkChild node t s (node.depth + 1))) :
    ∀ (ts : List String) (cnt : Nat) (stack : List SearchNode),
    (∀ k ∈ stack, P k) → ∀ k ∈ (dfsPush ev problem node ts cnt stack).2, P k := by
  intro ts
  induction ts with
  | nil => intro cnt stack hs k hk; exact hs k hk
  | cons t ts ih =>
    intro cnt stack hs k hk
    simp only [dfsPush] at hk
    split at hk
    · exact ih _ _ hs k hk
    · rename_i hnp
      refine ih _ _ ?_ k hk
      intro m hm
      rcases List.mem_cons.mp hm with rfl | hm2
      · exact hmk _ _ (not_lt.mp hnp)
      · exact hs m hm2

theorem dfsLoop_P (P : SearchNode → Prop) (gen : Generator) (ev : Evaluator)
    (problem : String) (br maxd : Nat)
    (hmk : ∀ n t s, P n → mkRat 3 10 ≤ s → P (mkChild n t s (n.depth + 1))) :
    ∀ (fuel : Nat) (stack : List SearchNode) (best : SearchNode) (cnt c : Nat) (n : SearchNode),
    (∀ m ∈ stack, P m) → P best →
    dfsLoop gen ev problem br maxd fuel stack best cnt = some (c, n) → P n := by
  intro fuel
  induction fuel with
  | zero =>
    intro stack best cnt c n hs hb h
    cases stack with
    | nil =>
      simp only [dfsLoop, Option.some.injEq, Prod.mk.injEq] at h
      exact h.2 ▸ hb
    | cons a l => simp [dfsLoop] at h
  | succ fuel ih =>
    intro stack best cnt c n hs hb h
    cases stack with
    | nil =>
      simp only [dfsLoop, Option.some.injEq, Prod.mk.injEq] at h
      exact h.2 ▸ hb
    | cons node stack =>
      simp only [dfsLoop] at h
      split at h
      · exact ih _ _ _ _ _ (fun m hm => hs m (List.mem_cons_of_mem node hm)) hb h
      · split at h
        · simp only [Option.some.injEq, Prod.mk.injEq] at h
          exact h.2 ▸ hs node (List.mem_cons_self node stack)
        · rcases hpush : dfsPush ev problem node
            ((gen (if node.state = "Start" then "" else node.state) problem br).reverse)
            cnt stack with ⟨c1, stack2⟩
          rw [hpush] at h
          simp only at h
          refine ih stack2 _ c1 c n ?_ ?_ h
          · intro m hm
            have hall := dfsPush_P P ev problem node
              (fun t s hsc => hmk node t s (hs node (List.mem_cons_self node stack)) hsc)
              ((gen (if node.state = "Start" then "" else node.state) problem br).reverse)
              cnt stack (fun k hk => hs k (List.mem_cons_of_mem node hk))
            rw [hpush] at hall
            exact hall m hm
          · dsimp only
            split
            · exact hs node (List.mem_cons_self node stack)
            · exact hb

theorem solve_P (P : SearchNode → Prop) (gen : Generator) (ev : Evaluator)
    (cfg : SolverConfig) (problem : String) (fuel : Nat)
    (hmk : ∀ n t s d, P n → mkRat 3 10 ≤ s → P (mkChild n t s d)) (hroot : P root) :
    ∀ (sol : String) (sc : ℚ) (dep cnt : Nat),
    solve gen ev cfg problem fuel = some (Except.ok (Outcome.solved sol sc dep cnt)) →
    ∃ n, P n ∧ sol = n.get_full_path ∧ sc = n.score ∧ dep = n.depth := by
  intro sol sc dep cnt h
  simp only [solve] at h
  split at h
  · split at h
    · rename_i c1 n2 heq
      simp only [Option.some.injEq, Except.ok.injEq, Outcome.solved.injEq] at h
      refine ⟨n2, ?_, h.1.symm, h.2.1.symm, h.2.2.1.symm⟩
      refine bfsLoop_P P gen ev problem cfg.branching_factor hmk _ _ _ _ _ _ ?_ heq
      intro m hm
      rcases List.mem_singleton.mp hm with rfl
      exact hroot
    · simp at h
  · split at h
    · split at h
      · simp at h
      · rename_i c2 n2 heq
        simp only [Option.some.injEq, Except.ok.injEq, Outcome.solved.injEq] at h
        refine ⟨n2, ?_, h.1.symm, h.2.1.symm, h.2.2.1.symm⟩
        refine dfsLoop_P P gen ev problem cfg.branching_factor cfg.max_depth
          (fun n t s hn => hmk n t s (n.depth + 1) hn) fuel [root] root 0 c2 n2 ?_ hroot heq
        intro m hm
        rcases List.mem_singleton.mp hm with rfl
        exact hroot
    · simp at h

/-- Claim C5: no node with an evaluated score below the prune threshold 0.3
is ever materialized: every surviving breadth-level child, every node ever
on the depth stack, and the node behind any solved outcome score at least
0.3. -/
theorem c5_pruning :
    (∀ (ev : Evaluator) (problem : String) (node : SearchNode) (d : Nat)
       (ts : List String) (cnt c : Nat) (kids : List SearchNode),
       bfsChildren ev problem node d ts cnt = (c, Sum.inr kids) →
       ∀ k ∈ kids, mkRat 3 10 ≤ k.score)
    ∧ (∀ (gen : Generator) (ev : Evaluator) (problem : String) (br d : Nat)
       (ns : List SearchNode) (cnt c : Nat) (next : List SearchNode),
       (∀ m ∈ ns, mkRat 3 10 ≤ m.score) →
       bfsLevel gen ev problem br d ns cnt = (c, Sum.inr next) →
       ∀ k ∈ next, mkRat 3 10 ≤ k.score)
    ∧ (∀ (ev : Evaluator) (problem : String) (node : SearchNode) (ts : List String)
       (cnt : Nat) (stack : List SearchNode),
       (∀ k ∈ stack, mkRat 3 10 ≤ k.score) →
       ∀ k ∈ (dfsPush ev problem node ts cnt stack).2, mkRat 3 10 ≤ k.score)
    ∧ (∀ (gen : Generator) (ev : Evaluator) (cfg : SolverConfig) (problem : String)
       (fuel : Nat) (sol : String) (sc : ℚ) (dep cnt : Nat),
       solve gen ev cfg problem fuel = some (Except.ok (Outcome.solved sol sc dep cnt)) →
       mkRat 3 10 ≤ sc) := by
  refine ⟨?_, ?_, ?_, ?_⟩
  · intro ev problem node d ts cnt c kids h
    exact bfsChildren_inr_P _ ev problem node d (fun t s hs => by simpa using hs) ts cnt c kids h
  · intro gen ev problem br d ns cnt c next hns h
    exact bfsLevel_inr_P (fun k => mkRat 3 10 ≤ k.score) gen ev problem br d
      (fun n t s _ hs => by simpa using hs) ns cnt c next hns h
  · intro ev problem node ts cnt stack hstack
    exact dfsPush_P _ ev problem node (fun t s hs => by simpa using hs) ts cnt stack hstack
  · intro gen ev cfg problem fuel sol sc dep cnt h
    obtain ⟨n, hn, _, rfl, _⟩ :=
      solve_P (fun k => mkRat 3 10 ≤ k.score) gen ev cfg problem fuel
        (fun n t s d _ hs => by simpa using hs) (by decide) sol sc dep cnt h
    exact hn

/-- Claim C5 witness: in the concrete "DONE" scenario the solved outcome's
score 1.0 is at least the prune threshold, the surviving children of the
root level score at least 0.3, and pushing onto a stack of qualifying nodes
keeps every stack entry at or above 0.3. -/
theorem c5_pruning_witness :
    (∀ k ∈ [mkChild root "A" (mkRat 1 2) 1, mkChild root "B" (mkRat 1 2) 1,
        mkChild root "C" (mkRat 1 2) 1], mkRat 3 10 ≤ SearchNode.score k)
    ∧ (∀ k ∈ (dfsPush ev3 "P" root ["A"] 0 []).2, mkRat 3 10 ≤ SearchNode.score k)
    ∧ mkRat 3 10 ≤ mkRat 1 1 := by
  refine ⟨?_, ?_, ?_⟩
  · exact c5_pruning.2.1 genC2 evC2 "P" 3 1 [root] 0 3 _
      (by intro m hm; rcases List.mem_singleton.mp hm with rfl; decide) rfl
  · exact c5_pruning.2.2.1 ev3 "P" root ["A"] 0 [] (by intro k hk; cases hk)
  · exact c5_pruning.2.2.2 gen4 ev4 ⟨"bfs", 5, 2⟩ "P" 5 "Start\nDONE" (mkRat 1 1) 1 2 rfl

/-! ### Helper lemmas: every reasoning chain starts at the root marker -/

theorem rootedPath_root : RootedPath root := Or.inl ⟨rfl, rfl⟩

theorem rootedPath_mkChild (node : SearchNode) (t : String) (s : ℚ) (d : Nat)
    (h : RootedPath node) : RootedPath (mkChild node t s d) := by
  rcases h with ⟨h1, h2⟩ | ⟨l, hl⟩
  · right
    exact ⟨[], by simp [RootedPath, h1, h2]⟩
  · right
    exact ⟨l ++ [node.state], by simp [RootedPath, hl]⟩

theorem get_full_path_rooted (n : SearchNode) (h : RootedPath n) :
    n.get_full_path = "Start" ∨ ∃ t, n.get_full_path = "Start\n" ++ t := by
  rcases h with ⟨h1, h2⟩ | ⟨l, hl⟩
  · left
    simp [SearchNode.get_full_path, h1, h2, joinNL]
  · right
    rw [SearchNode.get_full_path, hl]
    cases l with
    | nil => exact ⟨n.state, rfl⟩
    | cons y ys => exact ⟨joinNL (y :: (ys ++ [n.state])), rfl⟩

/-- Claim C9: every solved outcome's solution starts with the synthetic
root's `"Start"` marker as its first line, and in depth mode an exhausted
search (empty generator) yields the bare single-line solution `"Start"`. -/
theorem c9_root_sentinel :
    (∀ (gen : Generator) (ev : Evaluator) (cfg : SolverConfig) (problem : String)
       (fuel : Nat) (sol : String) (sc : ℚ) (dep cnt : Nat),
       solve gen ev cfg problem fuel = some (Except.ok (Outcome.solved sol sc dep cnt)) →
       sol = "Start" ∨ ∃ t, sol = "Start\n" ++ t)
    ∧ solve emptyGen zeroEval ⟨"dfs", 5, 3⟩ "P" 5
        = some (Except.ok (Outcome.solved "Start" (mkRat 1 2) 0 0)) := by
  constructor
  · intro gen ev cfg problem fuel sol sc dep cnt h
    obtain ⟨n, hn, rfl, _, _⟩ := solve_P RootedPath gen ev cfg problem fuel
      (fun n t s d hP _ => rootedPath_mkChild n t s d hP) rootedPath_root sol sc dep cnt h
    exact get_full_path_rooted n hn
  · rfl

/-- Claim C9 witness: the concrete "DONE" scenario's solution
`"Start\nDONE"` indeed starts with the `"Start"` line. -/
theorem c9_root_sentinel_witness :
    "Start\nDONE" = "Start" ∨ ∃ t, "Start\nDONE" = "Start\n" ++ t :=
  c9_root_sentinel.1 gen4 ev4 ⟨"bfs", 5, 2⟩ "P" 5 "Start\nDONE" (mkRat 1 1) 1 2 rfl

/-- Claim C1 counterexample: with a generator that always returns the empty
sequence and the depth strategy, the stack empties with `best_node` still
the unpromoted root, yet `solve` returns a solved outcome (the bare root
path `"Start"`), not the claimed failed outcome. -/
theorem c1_counterexample :
    solve emptyGen zeroEval ⟨"dfs", 5, 3⟩ "Prove it" 5
        = some (Except.ok (Outcome.solved "Start" (mkRat 1 2) 0 0))
    ∧ solve emptyGen zeroEval ⟨"dfs", 5, 3⟩ "Prove it" 5
        ≠ some (Except.ok (Outcome.failed "Max depth or no solution found" 0)) := by
  refine ⟨rfl, fun h => ?_⟩
  have h2 : some (Except.ok (Outcome.solved "Start" (mkRat 1 2) 0 0))
      = some (Except.ok (Outcome.failed "Max depth or no solution found" 0)) := h
  exact Outcome.noConfusion (Except.ok.inj (Option.some.inj h2))

/-- Claim C1 (amended): with a generator that always returns the empty
sequence, breadth mode exhausts the frontier and returns the failed outcome
with reason `"Max depth or no solution found"` (and no exception), for any
evaluator, problem, positive max depth and branching factor; depth mode,
however, returns the unpromoted root as a solved outcome with solution
`"Start"`. -/
theorem dfsLoop_nil_stack (gen : Generator) (ev : Evaluator) (problem : String)
    (br maxd fuel : Nat) (best : SearchNode) (cnt : Nat) :
    dfsLoop gen ev problem br maxd fuel [] best cnt = some (cnt, best) := by
  cases fuel <;> rfl

theorem c1_exhaustion (ev : Evaluator) (problem : String) (maxd br fuel : Nat)
    (hmd : 1 ≤ maxd) (hfuel : 1 ≤ fuel) :
    solve emptyGen ev ⟨"bfs", maxd, br⟩ problem fuel
        = some (Except.ok (Outcome.failed "Max depth or no solution found" 0))
    ∧ solve emptyGen ev ⟨"dfs", maxd, br⟩ problem fuel
        = some (Except.ok (Outcome.solved "Start" (mkRat 1 2) 0 0)) := by
  constructor
  · obtain ⟨m, rfl⟩ := Nat.exists_eq_add_of_le' hmd
    rfl
  · obtain ⟨f, rfl⟩ := Nat.exists_eq_add_of_le' hfuel
    have hone : dfsLoop emptyGen ev problem br maxd (f + 1) [root] root 0
        = dfsLoop emptyGen ev problem br maxd f [] root 0 := rfl
    have h2 : solve emptyGen ev ⟨"dfs", maxd, br⟩ problem (f + 1)
        = match dfsLoop emptyGen ev problem br maxd (f + 1) [root] root 0 with
          | none => none
          | some (cnt, n) =>
              some (Except.ok (Outcome.solved n.get_full_path n.score n.depth cnt)) := rfl
    rw [h2, hone, dfsLoop_nil_stack]
    rfl

/-- Claim C1 witness: the default-shaped configuration (max depth 5,
branching 3) with the always-empty generator. -/
theorem c1_exhaustion_witness :
    solve emptyGen zeroEval ⟨"bfs", 5, 3⟩ "P" 6
        = some (Except.ok (Outcome.failed "Max depth or no solution found" 0))
    ∧ solve emptyGen zeroEval ⟨"dfs", 5, 3⟩ "P" 6
        = some (Except.ok (Outcome.solved "Start" (mkRat 1 2) 0 0)) :=
  c1_exhaustion zeroEval "P" 5 3 6 (by decide) (by decide)

/-! ### Helper lemmas: the first threshold-crossing candidate wins a
breadth level -/

theorem bfsChildren_find_some (ev : Evaluator) (problem : String) (node : SearchNode)
    (d : Nat) :
    ∀ (ts : List String) (cnt : Nat) (t0 : String),
    ts.find? (fun t => decide (mkRat 9 10 ≤ ev (node.get_full_path ++ "\n" ++ t) problem))
        = some t0 →
    ∃ c, bfsChildren ev problem node d ts cnt
      = (c, Sum.inl (mkChild node t0 (ev (node.get_full_path ++ "\n" ++ t0) problem) d)) := by
  intro ts
  induction ts with
  | nil => intro cnt t0 h; simp at h
  | cons t ts ih =>
    intro cnt t0 h
    simp only [List.find?_cons] at h
    simp only [bfsChildren]
    by_cases hs : mkRat 9 10 ≤ ev (node.get_full_path ++ "\n" ++ t) problem
    · rw [decide_eq_true hs] at h
      obtain rfl : t = t0 := Option.some.inj h
      rw [if_neg (not_lt.mpr (le_trans (by decide) hs)), if_pos hs]
      exact ⟨cnt + 1, rfl⟩
    · rw [decide_eq_false hs] at h
      obtain ⟨c, hc⟩ := ih (cnt + 1) t0 h
      by_cases hp : ev (node.get_full_path ++ "\n" ++ t) problem < mkRat 3 10
      · rw [if_pos hp]
        exact ⟨c, hc⟩
      · rw [if_neg hp, if_neg hs, hc]
        exact ⟨c, rfl⟩

theorem bfsChildren_find_none (ev : Evaluator) (problem : String) (node : SearchNode)
    (d : Nat) :
    ∀ (ts : List String) (cnt : Nat),
    ts.find? (fun t => decide (mkRat 9 10 ≤ ev (node.get_full_path ++ "\n" ++ t) problem))
        = none →
    ∃ c kids, bfsChildren ev problem node d ts cnt = (c, Sum.inr kids) := by
  intro ts
  induction ts with
  | nil => intro cnt _; exact ⟨cnt, [], rfl⟩
  | cons t ts ih =>
    intro cnt h
    simp only [List.find?_cons] at h
    by_cases hs : mkRat 9 10 ≤ ev (node.get_full_path ++ "\n" ++ t) problem
    · rw [decide_eq_true hs] at h
      cases h
    · rw [decide_eq_false hs] at h
      obtain ⟨c, kids, hc⟩ := ih (cnt + 1) h
      simp only [bfsChildren]
      by_cases hp : ev (node.get_full_path ++ "\n" ++ t) problem < mkRat 3 10
      · rw [if_pos hp]
        exact ⟨c, kids, hc⟩
      · rw [if_neg hp, if_neg hs, hc]
        exact ⟨c, _ :: kids, rfl⟩

theorem bfsLevel_find_some (gen : Generator) (ev : Evaluator) (problem : String)
    (br d : Nat) :
    ∀ (ns : List SearchNode) (cnt : Nat) (n : SearchNode) (t : String) (s : ℚ),
    (∀ m ∈ ns, m.score < mkRat 9 10) →
    (levelCands gen ev problem br ns).find? (fun c => decide (mkRat 9 10 ≤ c.2.2))
        = some (n, t, s) →
    ∃ c, bfsLevel gen ev problem br d ns cnt = (c, Sum.inl (mkChild n t s d)) := by
  intro ns
  induction ns with
  | nil => intro cnt n t s _ h; simp [levelCands] at h
  | cons n0 ns ih =>
    intro cnt n t s hlt h
    simp only [levelCands, List.flatMap_cons, List.find?_append, List.find?_map,
      Function.comp_def] at h
    simp only [bfsLevel]
    rw [if_neg (not_le.mpr (hlt n0 (List.mem_cons_self n0 ns)))]
    rcases hh : (gen (if n0.state = "Start" then "" else n0.state) problem br).find?
        (fun t => decide (mkRat 9 10 ≤ ev (n0.get_full_path ++ "\n" ++ t) problem))
      with _ | t1
    · rw [hh, Option.map_none', Option.none_or] at h
      obtain ⟨c1, kids, hc1⟩ := bfsChildren_find_none ev problem n0 d _ cnt hh
      obtain ⟨c2, hc2⟩ := ih c1 n t s (fun m hm => hlt m (List.mem_cons_of_mem n0 hm)) h
      refine ⟨c2, ?_⟩
      split
      · rename_i c3 f3 heq
        rw [hc1] at heq
        simp at heq
      · rename_i c3 kids3 heq
        rw [hc1] at heq
        obtain ⟨rfl, rfl⟩ : c3 = c1 ∧ kids3 = kids := by
          have h4 := heq.symm
          rw [Prod.mk.injEq, Sum.inr.injEq] at h4
          exact h4
        split
        · rename_i c4 f4 heq2
          rw [hc2] at heq2
          have h5 := heq2.symm
          rw [Prod.mk.injEq, Sum.inl.injEq] at h5
          rw [h5.1, h5.2]
        · rename_i c4 rest4 heq2
          rw [hc2] at heq2
          simp at heq2
    · rw [hh, Option.map_some', Option.or_some] at h
      have h2 := Option.some.inj h
      rw [Prod.mk.injEq, Prod.mk.injEq] at h2
      obtain ⟨rfl, rfl, rfl⟩ := h2
      obtain ⟨c1, hc1⟩ := bfsChildren_find_some ev problem n0 d _ cnt t1 hh
      refine ⟨c1, ?_⟩
      split
      · rename_i c3 f3 heq
        rw [hc1] at heq
        have h5 := heq.symm
        rw [Prod.mk.injEq, Sum.inl.injEq] at h5
        rw [h5.1, h5.2]
      · rename_i c3 kids3 heq
        rw [hc1] at heq
        simp at heq

/-- Claim C3 (amended): in breadth mode, whenever a level's candidates (in
generation order) contain one whose evaluated full-path score reaches the
success threshold 0.9, the level returns the child built from the first
such candidate, and the loop returns it as the result without running any
deeper level; in depth mode, a popped node within the depth bound whose
score reaches 0.9 is returned immediately, abandoning the remaining stack
(termination on a threshold-crossing evaluation itself is not guaranteed in
depth mode, see the counterexample). -/
theorem c3_early_termination :
    (∀ (gen : Generator) (ev : Evaluator) (problem : String) (br fuel d : Nat)
       (frontier : List SearchNode) (cnt : Nat) (n : SearchNode) (t : String) (s : ℚ),
       (∀ m ∈ frontier, m.score < mkRat 9 10) →
       (levelCands gen ev problem br frontier).find? (fun c => decide (mkRat 9 10 ≤ c.2.2))
           = some (n, t, s) →
       ∃ c, bfsLevel gen ev problem br (d + 1) frontier cnt
             = (c, Sum.inl (mkChild n t s (d + 1)))
         ∧ bfsLoop gen ev problem br (fuel + 1) d frontier cnt
             = (c, some (mkChild n t s (d + 1))))
    ∧ (∀ (gen : Generator) (ev : Evaluator) (problem : String) (br maxd fuel : Nat)
       (node : SearchNode) (stack : List SearchNode) (best : SearchNode) (cnt : Nat),
       node.depth ≤ maxd → mkRat 9 10 ≤ node.score →
       dfsLoop gen ev problem br maxd (fuel + 1) (node :: stack) best cnt
           = some (cnt, node)) := by
  constructor
  · intro gen ev problem br fuel d frontier cnt n t s hlt hfind
    obtain ⟨c, hc⟩ := bfsLevel_find_some gen ev problem br (d + 1) frontier cnt n t s hlt hfind
    refine ⟨c, hc, ?_⟩
    simp only [bfsLoop, hc]
  · intro gen ev problem br maxd fuel node stack best cnt hdep hsc
    simp only [dfsLoop, if_neg (not_lt.mpr hdep), if_pos hsc]

/-- Claim C3 counterexample (depth mode): the full path `"Start\nA\nB"` is
evaluated at 1.0 — at or above the success threshold — during the search,
yet `solve` does not return a solved outcome for that path: the crossing
child sits at depth `max_depth + 1`, is skipped when popped, and `solve`
returns the root path `"Start"` with score 0.5 instead. -/
theorem c3_counterexample :
    ev3 "Start\nA\nB" "P" = mkRat 1 1
    ∧ (mkRat 9 10 ≤ mkRat 1 1)
    ∧ solve gen3 ev3 ⟨"dfs", 1, 1⟩ "P" 9
        = some (Except.ok (Outcome.solved "Start" (mkRat 1 2) 0 2))
    ∧ ¬ mkRat 9 10 ≤ mkRat 1 2 :=
  ⟨rfl, by decide, rfl, by decide⟩

/-- Claim C3 witness: in the "DONE" scenario the first (and only) crossing
candidate of the root level is `(root, "DONE", 1.0)`, and both the level
and the loop return the child built from it; and a popped depth-mode node
scoring 1.0 within the bound is returned at once. -/
theorem c3_early_termination_witness :
    (∃ c, bfsLevel gen4 ev4 "P" 2 (0 + 1) [root] 0
          = (c, Sum.inl (mkChild root "DONE" (mkRat 1 1) (0 + 1)))
      ∧ bfsLoop gen4 ev4 "P" 2 (4 + 1) 0 [root] 0
          = (c, some (mkChild root "DONE" (mkRat 1 1) (0 + 1))))
    ∧ dfsLoop gen4 ev4 "P" 2 5 (0 + 1) [mkChild root "DONE" (mkRat 1 1) 1] root 7
        = some (7, mkChild root "DONE" (mkRat 1 1) 1) := by
  constructor
  · exact c3_early_termination.1 gen4 ev4 "P" 2 4 0 [root] 0 root "DONE" (mkRat 1 1)
      (by intro m hm; rcases List.mem_singleton.mp hm with rfl; decide) rfl
  · exact c3_early_termination.2 gen4 ev4 "P" 2 5 0 (mkChild root "DONE" (mkRat 1 1) 1)
      [] root 7 (by decide) (by decide)

/-- Claim C7: every child constructed by either traversal records its
parent, has depth exactly its parent's depth plus one and history equal to
its parent's history extended with the parent's state, and
`get_full_path` is the concatenation of the history followed by the node's
own state. -/
theorem c7_node_invariants :
    (∀ (ev : Evaluator) (problem : String) (node : SearchNode) (d : Nat)
       (ts : List String) (cnt c : Nat) (kids : List SearchNode),
       node.depth = d →
       bfsChildren ev problem node (d + 1) ts cnt = (c, Sum.inr kids) →
       ∀ k ∈ kids, k.parent = some node ∧ k.depth = node.depth + 1
         ∧ k.path_history = node.path_history ++ [node.state])
    ∧ (∀ (ev : Evaluator) (problem : String) (node : SearchNode) (d : Nat)
       (ts : List String) (cnt c : Nat) (f : SearchNode),
       node.depth = d →
       bfsChildren ev problem node (d + 1) ts cnt = (c, Sum.inl f) →
       f.parent = some node ∧ f.depth = node.depth + 1
         ∧ f.path_history = node.path_history ++ [node.state])
    ∧ (∀ (ev : Evaluator) (problem : String) (node : SearchNode)
       (ts : List String) (cnt : Nat) (stack : List SearchNode),
       ∀ k ∈ (dfsPush ev problem node ts cnt stack).2,
       k ∈ stack ∨ (k.parent = some node ∧ k.depth = node.depth + 1
         ∧ k.path_history = node.path_history ++ [node.state]))
    ∧ (∀ n : SearchNode, n.get_full_path = joinNL (n.path_history ++ [n.state])) := by
  refine ⟨?_, ?_, ?_, fun n => rfl⟩
  · intro ev problem node d ts cnt c kids hd h k hk
    subst hd
    exact bfsChildren_inr_P
      (fun k => k.parent = some node ∧ k.depth = node.depth + 1
        ∧ k.path_history = node.path_history ++ [node.state])
      ev problem node (node.depth + 1) (fun t s _ => ⟨rfl, rfl, rfl⟩) ts cnt c kids h k hk
  · intro ev problem node d ts cnt c f hd h
    subst hd
    exact (bfsChildren_inl_P
      (fun k => k.parent = some node ∧ k.depth = node.depth + 1
        ∧ k.path_history = node.path_history ++ [node.state])
      ev problem node (node.depth + 1) (fun t s _ => ⟨rfl, rfl, rfl⟩) ts cnt c f h).1
  · intro ev problem node ts cnt stack k hk
    exact dfsPush_P
      (fun k => k ∈ stack ∨ (k.parent = some node ∧ k.depth = node.depth + 1
        ∧ k.path_history = node.path_history ++ [node.state]))
      ev problem node (fun t s _ => Or.inr ⟨rfl, rfl, rfl⟩) ts cnt stack
      (fun m hm => Or.inl hm) k hk

/-- Claim C7 witness: concrete instances — the three surviving root-level
children of the `genC2` scenario, the early-returned "DONE" child, a
one-element depth push, and `get_full_path` of the root. -/
theorem c7_node_invariants_witness :
    (∀ k ∈ [mkChild root "A" (mkRat 1 2) 1, mkChild root "B" (mkRat 1 2) 1,
        mkChild root "C" (mkRat 1 2) 1],
      SearchNode.parent k = some root ∧ SearchNode.depth k = root.depth + 1
        ∧ SearchNode.path_history k = root.path_history ++ [root.state])
    ∧ ((mkChild root "DONE" (mkRat 1 1) 1).parent = some root
        ∧ (mkChild root "DONE" (mkRat 1 1) 1).depth = root.depth + 1
        ∧ (mkChild root "DONE" (mkRat 1 1) 1).path_history
            = root.path_history ++ [root.state])
    ∧ (∀ k ∈ (dfsPush ev3 "P" root ["A"] 0 []).2,
        k ∈ ([] : List SearchNode)
          ∨ (SearchNode.parent k = some root ∧ SearchNode.depth k = root.depth + 1
            ∧ SearchNode.path_history k = root.path_history ++ [root.state]))
    ∧ root.get_full_path = joinNL (root.path_history ++ [root.state]) := by
  refine ⟨?_, ?_, ?_, ?_⟩
  · exact c7_node_invariants.1 evC2 "P" root 0 ["A", "B", "C"] 0 3 _ rfl rfl
  · exact c7_node_invariants.2.1 ev4 "P" root 0 ["A", "DONE"] 0 2 _ rfl rfl
  · exact c7_node_invariants.2.2.1 ev3 "P" root ["A"] 0 []
  · exact c7_node_invariants.2.2.2 root

/-! ### Helper lemmas: the source's hardcoded constants instantiate the
configurable solver -/

theorem bfsChildren_eq_param (ev : Evaluator) (problem : String) (node : SearchNode)
    (d : Nat) (ts : List String) (cnt : Nat) :
    bfsChildren ev problem node d ts cnt
      = bfsChildrenP ev problem (mkRat 3 10) (mkRat 9 10) node d ts cnt := by
  induction ts generalizing cnt with
  | nil => rfl
  | cons t ts ih => simp only [bfsChildren, bfsChildrenP, ih]

theorem bfsLevel_eq_param (gen : Generator) (ev : Evaluator) (problem : String)
    (b d : Nat) (ns : List SearchNode) (cnt : Nat) :
    bfsLevel gen ev problem b d ns cnt
      = bfsLevelP gen ev problem b (mkRat 3 10) (mkRat 9 10) d ns cnt := by
  induction ns generalizing cnt with
  | nil => rfl
  | cons n ns ih => simp only [bfsLevel, bfsLevelP, bfsChildren_eq_param, ih]

theorem bfsLoop_eq_param (gen : Generator) (ev : Evaluator) (problem : String)
    (b : Nat) (fuel d : Nat) (q : List SearchNode) (cnt : Nat) :
    bfsLoop gen ev problem b fuel d q cnt
      = bfsLoopP gen ev problem b 5 (mkRat 3 10) (mkRat 9 10) fuel d q cnt := by
  induction fuel generalizing d q cnt with
  | zero => rfl
  | succ fuel ih => simp only [bfsLoop, bfsLoopP, bfsLevel_eq_param, ih]

theorem dfsPush_eq_param (ev : Evaluator) (problem : String) (node : SearchNode)
    (ts : List String) (cnt : Nat) (stack : List SearchNode) :
    dfsPush ev problem node ts cnt stack
      = dfsPushP ev problem (mkRat 3 10) node ts cnt stack := by
  induction ts generalizing cnt stack with
  | nil => rfl
  | cons t ts ih => simp only [dfsPush, dfsPushP, ih]

theorem dfsLoop_eq_param (gen : Generator) (ev : Evaluator) (problem : String)
    (b maxd : Nat) (fuel : Nat) (stack : List SearchNode) (best : SearchNode) (cnt : Nat) :
    dfsLoop gen ev problem b maxd fuel stack best cnt
      = dfsLoopP gen ev problem b maxd (mkRat 3 10) (mkRat 9 10) fuel stack best cnt := by
  induction fuel generalizing stack best cnt with
  | zero => cases stack <;> rfl
  | succ fuel ih => cases stack with
    | nil => rfl
    | cons node stack => simp only [dfsLoop, dfsLoopP, dfsPush_eq_param, ih]

/-- Claim C2 (amended): the source constructor accepts exactly strategy,
max depth (default 5) and branching factor (default 3); beam width, prune
threshold and success threshold are the fixed constants 5, 0.3 and 0.9, so
`solve` coincides with the spec's configurable solver instantiated at those
constants. -/
theorem c2_fixed_constants :
    (∀ (gen : Generator) (ev : Evaluator) (cfg : SolverConfig) (problem : String) (fuel : Nat),
      solve gen ev cfg problem fuel
        = solveP gen ev cfg 5 (mkRat 3 10) (mkRat 9 10) problem fuel)
    ∧ defaultConfig.strategy = "bfs" ∧ defaultConfig.max_depth = 5
    ∧ defaultConfig.branching_factor = 3 := by
  refine ⟨fun gen ev cfg problem fuel => ?_, rfl, rfl, rfl⟩
  simp only [solve, solveP, bfsLoop_eq_param, dfsLoop_eq_param]

/-- Claim C2 counterexample: the claim's configurable beam width does not
exist in the code — with beam width 2 the spec-configured solver disagrees
with the source's `solve` on a concrete run (the source always keeps five
survivors per level). -/
theorem c2_counterexample :
    solveP genC2 evC2 ⟨"bfs", 2, 3⟩ 2 (mkRat 3 10) (mkRat 9 10) "P" 5
        = some (Except.ok (Outcome.failed "Max depth or no solution found" 5))
    ∧ solve genC2 evC2 ⟨"bfs", 2, 3⟩ "P" 5
        = some (Except.ok (Outcome.failed "Max depth or no solution found" 6)) := by
  exact ⟨rfl, rfl⟩

/-- Claim C8: a strategy tag other than the two recognized ones makes
`solve` fail fast with the `ValueError` message, before any exploration:
the result does not depend on the generator or evaluator at all. -/
theorem c8_unknown_strategy (gen gen2 : Generator) (ev ev2 : Evaluator)
    (cfg : SolverConfig) (problem : String) (fuel : Nat)
    (h1 : cfg.strategy ≠ "bfs") (h2 : cfg.strategy ≠ "dfs") :
    solve gen ev cfg problem fuel = some (Except.error ("Unknown strategy: " ++ cfg.strategy))
    ∧ solve gen ev cfg problem fuel = solve gen2 ev2 cfg problem fuel := by
  constructor <;> simp only [solve, if_neg h1, if_neg h2]

/-- Claim C8 witness: the unrecognized tag `"beam"` with otherwise default
configuration. -/
theorem c8_unknown_strategy_witness :
    solve emptyGen zeroEval ⟨"beam", 5, 3⟩ "P" 5
        = some (Except.error "Unknown strategy: beam")
    ∧ solve emptyGen zeroEval ⟨"beam", 5, 3⟩ "P" 5 = solve gen4 ev4 ⟨"beam", 5, 3⟩ "P" 5 :=
  c8_unknown_strategy emptyGen gen4 zeroEval ev4 ⟨"beam", 5, 3⟩ "P" 5
    (by decide) (by decide)

/-- Claim C4: the spec's concrete "DONE" scenario — generator `["A",
"DONE"]` from the root and nothing deeper, evaluator scoring "DONE"-paths
1.0 and everything else 0.4, breadth strategy, max depth 5, branching 2 —
returns a solved outcome whose solution `"Start\nDONE"` ends in `"DONE"`,
with depth 1 and two explored nodes. -/
theorem c4_concrete_scenario :
    solve gen4 ev4 ⟨"bfs", 5, 2⟩ "P" 5
        = some (Except.ok (Outcome.solved "Start\nDONE" (mkRat 1 1) 1 2))
    ∧ hasSub "DONE" "Start\nDONE" = true := ⟨rfl, rfl⟩

/-- Claim C10: the root-sentinel substitution keys on the state text
equalling `"Start"`: a generated (non-root) node whose state is the literal
thought `"Start"` is expanded with the empty string passed to the
generator — the generator, which answers `["REAL"]` for the actual state
`"Start"`, is instead asked about `""` and answers `["Start"]`, so the
found solution is `"Start\nStart\nStart"`. -/
theorem c10_sentinel_keying :
    gen10 "Start" "P" 1 = ["REAL"]
    ∧ gen10 "" "P" 1 = ["Start"]
    ∧ solve gen10 ev10 ⟨"bfs", 5, 1⟩ "P" 5
        = some (Except.ok (Outcome.solved "Start\nStart\nStart" (mkRat 1 1) 2 2)) :=
  ⟨rfl, rfl, rfl⟩

end ToT
